import Mathlib

/-! # redisql: exporting the rows of a SQL table to Redis

A shallow embedding of `utils.Convert` (src/utils/db.go) and of
`migration.Migrate` (src/utils/migration/migration.go).

The two functions are effectful: they open connections, run one query,
walk the cursor and issue Redis commands.  The embedding passes an explicit
event log (every call that reaches the outside world, in program order)
and reads the answers of the outside world from an environment `Env`.

Modelling conventions
* a Go `string` is a `String`; `sql.RawBytes` is `Option String`, `none`
  being the nil slice a SQL NULL scans to, and `string(col)` is `rawText`;
* an `error` is its message; a function returning `error` returns
  `Option Error`, `none` being `nil`;
* `index` is a Go `int` (64 bits wide) that starts at 0 and grows by one per
  row; a run cannot reach the 2^63 rows it takes to wrap it, so it is a `Nat`;
* a Go `map[string]string` is an association list with distinct keys; the
  order of the list is not observable in Go.
-/

namespace Redisql

/-- A Go `error`, by its message. -/
abbrev Error := String

/-- The type `sql.RawBytes`: a byte slice, nil for a SQL NULL. -/
abbrev RawBytes := Option String

/-- The conversion `string(col)` of a `sql.RawBytes`: the nil slice gives the empty string. -/
def rawText (col : RawBytes) : String :=
  match col with
  | none => ""
  | some s => s

/-- A Go `map[string]string` (or `map[string]interface{}` holding strings). -/
abbrev GoMap := List (String × String)

/-- The map read `m[k]` with its presence flag. -/
def GoMap.get (m : GoMap) (k : String) : Option String :=
  match m with
  | [] => none
  | (k', v') :: rest => if k' = k then some v' else GoMap.get rest k

/-- The map assignment `m[k] = v`: an existing entry is overwritten, a new one is added. -/
def GoMap.set (m : GoMap) (k v : String) : GoMap :=
  match m with
  | [] => [(k, v)]
  | (k', v') :: rest => if k' = k then (k', v) :: rest else (k', v') :: GoMap.set rest k v

/-- A command sent to Redis by `rdb.Set`, `rdb.RPush` or `rdb.HSet`. -/
inductive RedisCmd where
  | set (key : String) (value : String)
  | rpush (key : String) (fields : List String)
  | hset (key : String) (rowMap : GoMap)
  deriving DecidableEq, Repr

/-- The key a Redis command writes. -/
def RedisCmd.key : RedisCmd → String
  | .set k _ => k
  | .rpush k _ => k
  | .hset k _ => k

/-- Every call of `Convert` and `Migrate` that reaches the outside world. -/
inductive Event where
  | sqlOpen (driver dsn : String)
  | ping
  | openSQLHelper (user password database : String)
  | openRedis (addr password : String)
  | query (stmt : String)
  | columns
  | next
  | scan
  | rowsErr
  | redis (cmd : RedisCmd)
  | print (text : String)
  | printKey (cmd : RedisCmd)
  | uuidNewV4
  | closeRows
  | closeRedis
  | closeDB
  deriving DecidableEq, Repr

/-- The cursor `*sql.Rows` a query returns: the answer of `rows.Columns()`, then for
each `rows.Next()` that reports a record the record `rows.Scan` is given (or the error it
fails with), and the answer of `rows.Err()` once `rows.Next()` has reported false. -/
structure Cursor where
  columns : Except Error (List String)
  records : List (Except Error (List RawBytes))
  err : Option Error

/-- The outside world: the SQL server, the Redis server and the random source. -/
structure Env where
  /-- answer of `sql.Open(driver, dsn)` -/
  sqlOpen : String → String → Option Error
  /-- answer of `db.Ping()` -/
  ping : Option Error
  /-- answer of `db.Query(stmt)` -/
  query : String → Except Error Cursor
  /-- answer of Redis to a command, given the commands sent before it -/
  redis : List RedisCmd → RedisCmd → Option Error
  /-- text of the identifier the k-th call of `uuid.NewV4()` returns -/
  uuid : Nat → String
  /-- whether `migration.OpenSQL` hands back a usable (non-nil) handle -/
  openSQLHelper : String → String → String → Bool

/-- The Redis commands of an event log, in order. -/
def redisCmds (log : List Event) : List RedisCmd :=
  log.filterMap fun ev =>
    match ev with
    | .redis cmd => some cmd
    | _ => none


/-- The call `fmt.Sprintf("%s:%d:%s", sqltable, index, column)`. -/
def scalarKey (sqltable : String) (index : Nat) (column : String) : String :=
  sqltable ++ ":" ++ toString index ++ ":" ++ column

/-- The call `fmt.Sprintf("%s:%d", sqltable, index)`. -/
def rowKey (sqltable : String) (index : Nat) : String :=
  sqltable ++ ":" ++ toString index

/-- The call `rows.Scan(scanArgs...)` with `n` destinations: the record arrives in the
`n` cells of `values`, or the call fails; database/sql refuses a record whose width is
not the number of destinations. -/
def scan (n : Nat) (record : Except Error (List RawBytes)) : Except Error (List RawBytes) :=
  match record with
  | .error e => .error e
  | .ok r =>
    if r.length = n then .ok r
    else .error ("sql: expected " ++ toString r.length ++
      " destination arguments in Scan, not " ++ toString n)

/-- The function `openSQL`: the events of the call and its error. -/
def openSQL (env : Env) (user password database : String) : List Event × Option Error :=
  let dsn :=
    if password = " " then user ++ "@/" ++ database
    else user ++ ":" ++ password ++ "@/" ++ database
  ([.sqlOpen "mysql" dsn], env.sqlOpen "mysql" dsn)

/-- The function `openPostgres`: the events of the call and its error. -/
def openPostgres (env : Env) (user password database host port : String) :
    List Event × Option Error :=
  let connectionString := "postgres://" ++ user ++ ":" ++ password ++ "@" ++ host ++ ":" ++
    port ++ "/" ++ database ++ "?sslmode=disable"
  match env.sqlOpen "postgres" connectionString with
  | some e => ([.sqlOpen "postgres" connectionString], some e)
  | none =>
    match env.ping with
    | some e => ([.sqlOpen "postgres" connectionString, .ping], some e)
    | none => ([.sqlOpen "postgres" connectionString, .ping], none)

/-- The loop `for i, col := range values` of the "string" case, from position `i` on,
after the events `tr`. -/
def setLoop (env : Env) (log : Bool) (sqltable : String) (index : Nat) (columns : List String) :
    Nat → List RawBytes → List Event → List Event × Option Error
  | _, [], tr => (tr, none)
  | i, col :: rest, tr =>
    let id := scalarKey sqltable index (columns.getD i "")
    let cmd := RedisCmd.set id (rawText col)
    match env.redis (redisCmds tr) cmd with
    | some e => (tr ++ [.redis cmd], some e)
    | none =>
      setLoop env log sqltable index columns (i + 1) rest
        (if log then tr ++ [.redis cmd, .printKey cmd] else tr ++ [.redis cmd])

/-- The loop `for rows.Next()` of the "string" case. -/
def stringLoop (env : Env) (log : Bool) (sqltable : String) (columns : List String) :
    List (Except Error (List RawBytes)) → Nat → List Event → List Event × Option Error
  | [], _, tr => (tr ++ [.next], none)
  | record :: rest, index, tr =>
    match scan columns.length record with
    | .error e => (tr ++ [.next, .scan], some e)
    | .ok values =>
      match setLoop env log sqltable index columns 0 values (tr ++ [.next, .scan]) with
      | (tr1, some e) => (tr1, some e)
      | (tr1, none) => stringLoop env log sqltable columns rest (index + 1) tr1

/-- The loop `for _, col := range values` of the "list" case, which appends to `fields`. -/
def collectFields : List RawBytes → List String → List String
  | [], fields => fields
  | col :: rest, fields => collectFields rest (fields ++ [rawText col])

/-- The loop `for rows.Next()` of the "list" case. -/
def listLoop (env : Env) (log : Bool) (sqltable : String) (columns : List String) :
    List (Except Error (List RawBytes)) → Nat → List Event → List Event × Option Error
  | [], _, tr => (tr ++ [.next], none)
  | record :: rest, index, tr =>
    match scan columns.length record with
    | .error e => (tr ++ [.next, .scan], some e)
    | .ok values =>
      let fields := collectFields values []
      let id := rowKey sqltable index
      let cmd := RedisCmd.rpush id fields
      let tr1 := tr ++ [.next, .scan, .redis cmd]
      match env.redis (redisCmds tr) cmd with
      | some e => (tr1, some e)
      | none =>
        listLoop env log sqltable columns rest (index + 1)
          (if log then tr1 ++ [.printKey cmd] else tr1)

/-- The loop `for i, col := range values` that fills `rowMap`, from position `i` on. -/
def fillRowMap (columns : List String) : Nat → List RawBytes → GoMap → GoMap
  | _, [], rowMap => rowMap
  | i, col :: rest, rowMap =>
    fillRowMap columns (i + 1) rest (rowMap.set (columns.getD i "") (rawText col))

/-- The loop `for rows.Next()` of the "hash" case. -/
def hashLoop (env : Env) (log : Bool) (sqltable : String) (columns : List String) :
    List (Except Error (List RawBytes)) → Nat → List Event → List Event × Option Error
  | [], _, tr => (tr ++ [.next], none)
  | record :: rest, index, tr =>
    match scan columns.length record with
    | .error e => (tr ++ [.next, .scan], some e)
    | .ok values =>
      let rowMap := fillRowMap columns 0 values []
      let id := rowKey sqltable index
      let cmd := RedisCmd.hset id rowMap
      let tr1 := tr ++ [.next, .scan, .redis cmd]
      match env.redis (redisCmds tr) cmd with
      | some e => (tr1, some e)
      | none =>
        hashLoop env log sqltable columns rest (index + 1)
          (if log then tr1 ++ [.printKey cmd] else tr1)

/-- The statement `switch redisType` of `Convert`, with the check of `rows.Err()` that
stands inside its "hash" case. -/
def convertSwitch (env : Env) (redisType : String) (log : Bool) (sqltable : String)
    (columns : List String) (rows : Cursor) (tr : List Event) : List Event × Option Error :=
  if redisType = "string" then stringLoop env log sqltable columns rows.records 0 tr
  else if redisType = "list" then listLoop env log sqltable columns rows.records 0 tr
  else if redisType = "hash" then
    match hashLoop env log sqltable columns rows.records 0 tr with
    | (tr1, some e) => (tr1, some e)
    | (tr1, none) => (tr1 ++ [.rowsErr], rows.err)
  else (tr, none)

/-- The part of `Convert` from `rows.Columns()` to its last line, after the events `tr`. -/
def convertRows (env : Env) (redisType : String) (log : Bool) (sqltable : String)
    (rows : Cursor) (tr : List Event) : List Event × Option Error :=
  match rows.columns with
  | .error e => (tr ++ [.columns], some e)
  | .ok columns =>
    match convertSwitch env redisType log sqltable columns rows
        (if log then tr ++ [.columns, .print "\nRedis Keys: \n"] else tr ++ [.columns]) with
    | (tr1, some e) => (tr1, some e)
    | (tr1, none) => (tr1 ++ [.print "\nCopying Complete!\n"], none)

/-- The part of `Convert` from `db.Query` on, after the events `tr`; the deferred
`rows.Close()` runs on every way out once the query has succeeded. -/
def convertQuery (env : Env) (redisType : String) (log : Bool) (sqltable : String)
    (tr : List Event) : List Event × Option Error :=
  let stmt := "SELECT * FROM " ++ sqltable
  match env.query stmt with
  | .error e => (tr ++ [.query stmt], some e)
  | .ok rows =>
    match convertRows env redisType log sqltable rows (tr ++ [.query stmt]) with
    | (tr1, res) => (tr1 ++ [.closeRows], res)

/-- The statement `switch sqlType` of `Convert`: `none` is the default case. -/
def openSource (env : Env) (sqlType sqluser sqlpassword sqldatabase sqlhost sqlport : String) :
    Option (List Event × Option Error) :=
  if sqlType = "mysql" then some (openSQL env sqluser sqlpassword sqldatabase)
  else if sqlType = "postgres" then
    some (openPostgres env sqluser sqlpassword sqldatabase sqlhost sqlport)
  else none

/-- The function `Convert`: the events of the call, in order, and the error it returns.
The deferred `rdb.Close()` and `db.Close()` run on every way out past their `defer`. -/
def Convert (env : Env) (redisType sqluser sqlpassword sqldatabase sqlhost sqlport sqltable
    redisaddr redispass sqlType : String) (log : Bool) : List Event × Option Error :=
  match openSource env sqlType sqluser sqlpassword sqldatabase sqlhost sqlport with
  | none => ([], some "Sql database type not known!")
  | some (tr, some e) => (tr, some e)
  | some (tr, none) =>
    match convertQuery env redisType log sqltable (tr ++ [.openRedis redisaddr redispass]) with
    | (tr1, res) => (tr1 ++ [.closeRedis, .closeDB], res)

/-- How a call of `Migrate` ends: it returns an error value, or it panics. -/
inductive Outcome where
  | returned (err : Option Error)
  | panicked
  deriving DecidableEq, Repr

/-- The loop `for rows.Next()` of `Migrate`; `k` counts the identifiers generated so far.
The result of `rdb.HSet` is dropped. -/
def migrateLoop (env : Env) (columns : List String) :
    List (Except Error (List RawBytes)) → Nat → List Event → List Event × Option Error
  | [], _, tr => (tr ++ [.next], none)
  | record :: rest, k, tr =>
    match scan columns.length record with
    | .error e => (tr ++ [.next, .scan], some e)
    | .ok values =>
      let rowMap := fillRowMap columns 0 values []
      let id := env.uuid k
      migrateLoop env columns rest (k + 1)
        (tr ++ [.next, .scan, .uuidNewV4, .print (id ++ "\n"), .redis (.hset id rowMap)])

/-- The part of `Migrate` from `rows.Columns()` to its last line, after the events `tr`. -/
def migrateRows (env : Env) (rows : Cursor) (tr : List Event) : List Event × Option Error :=
  match rows.columns with
  | .error e => (tr ++ [.columns], some e)
  | .ok columns =>
    match migrateLoop env columns rows.records 0
        (tr ++ [.columns, .print "Redis Keys:\n\n"]) with
    | (tr1, some e) => (tr1, some e)
    | (tr1, none) =>
      match rows.err with
      | some e => (tr1 ++ [.rowsErr], some e)
      | none => (tr1 ++ [.rowsErr, .print "\nMigration Complete!\n"], none)

/-- The function `Migrate`: the events of the call, in order, and how it ends.  The helper
`OpenSQL` of the package is not part of the sources at hand: the environment tells whether
the handle it gives back is usable, and its error is overwritten unread, as in the source.
Using a nil handle panics at `db.Query`. -/
def Migrate (env : Env) (user password database table redisAddress redisPassword : String) :
    List Event × Outcome :=
  let tr := [Event.openSQLHelper user password database, .openRedis redisAddress redisPassword]
  if env.openSQLHelper user password database then
    let stmt := "SELECT * FROM " ++ table ++ ";"
    match env.query stmt with
    | .error e => (tr ++ [.query stmt, .closeRedis, .closeDB], .returned (some e))
    | .ok rows =>
      match migrateRows env rows (tr ++ [.query stmt]) with
      | (tr1, res) => (tr1 ++ [.closeRows, .closeRedis, .closeDB], .returned res)
  else (tr ++ [.closeRedis], .panicked)

/-- A run of `Convert` gets past its `switch sqlType`: the kind is supported and the
connection opens. -/
def sourceOpens (env : Env) (sqlType sqluser sqlpassword sqldatabase sqlhost sqlport : String) :
    Prop :=
  ∃ tr, openSource env sqlType sqluser sqlpassword sqldatabase sqlhost sqlport = some (tr, none)

/-- An environment in which everything succeeds and the table `users` of the
specification's scenarios is served. -/
def usersEnv : Env where
  sqlOpen := fun _ _ => none
  ping := none
  query := fun _ => .ok
    { columns := .ok ["id", "name"]
      records := [.ok [some "1", some "a"], .ok [some "2", some "b"]]
      err := none }
  redis := fun _ _ => none
  uuid := fun k => "uuid-" ++ toString k
  openSQLHelper := fun _ _ _ => true

/-- Sending the commands `cmds` one after another after the commands `hist`, stopping at
the first one Redis refuses: the commands sent and the error. -/
def attempt (redis : List RedisCmd → RedisCmd → Option Error) :
    List RedisCmd → List RedisCmd → List RedisCmd × Option Error
  | hist, [] => (hist, none)
  | hist, cmd :: rest =>
    match redis hist cmd with
    | some e => (hist ++ [cmd], some e)
    | none => attempt redis (hist ++ [cmd]) rest

/-- The `SET` commands of one row in scalar mode, from column position `i` on. -/
def scalarWrites (sqltable : String) (index : Nat) (columns : List String) :
    Nat → List RawBytes → List RedisCmd
  | _, [] => []
  | i, col :: rest =>
    .set (scalarKey sqltable index (columns.getD i "")) (rawText col) ::
      scalarWrites sqltable index columns (i + 1) rest

/-- The commands of one row under an encoding mode. -/
def rowWrites (redisType sqltable : String) (columns : List String) (index : Nat)
    (values : List RawBytes) : List RedisCmd :=
  if redisType = "string" then scalarWrites sqltable index columns 0 values
  else if redisType = "list" then [.rpush (rowKey sqltable index) (values.map rawText)]
  else if redisType = "hash" then
    [.hset (rowKey sqltable index) (fillRowMap columns 0 values [])]
  else []

/-- The write sequence of a run in which nothing fails: the commands of each row in
stream order, the first row having position `index`. -/
def noFailureWrites (redisType sqltable : String) (columns : List String) :
    List (List RawBytes) → Nat → List RedisCmd
  | [], _ => []
  | values :: rest, index =>
    rowWrites redisType sqltable columns index values ++
      noFailureWrites redisType sqltable columns rest (index + 1)

/-- The rows a cursor delivers before its first failing scan. -/
def scannedRows (n : Nat) : List (Except Error (List RawBytes)) → List (List RawBytes)
  | [] => []
  | record :: rest =>
    match scan n record with
    | .error _ => []
    | .ok values => values :: scannedRows n rest

/-- The error of the first failing scan of a cursor, if any. -/
def scanFailure (n : Nat) : List (Except Error (List RawBytes)) → Option Error
  | [] => none
  | record :: rest =>
    match scan n record with
    | .error e => some e
    | .ok _ => scanFailure n rest

/-- An environment that serves the table `users` and in which Redis accepts the first
command and refuses every later one. -/
def brokenRedisEnv : Env where
  sqlOpen := fun _ _ => none
  ping := none
  query := fun _ => .ok
    { columns := .ok ["id", "name"]
      records := [.ok [some "1", some "a"], .ok [some "2", some "b"]]
      err := none }
  redis := fun hist _ => if hist.length = 0 then none else some "connection refused"
  uuid := fun k => "uuid-" ++ toString k
  openSQLHelper := fun _ _ _ => true

/-- An environment that serves the table `users` and in which Redis refuses every
command. -/
def deadRedisEnv : Env where
  sqlOpen := fun _ _ => none
  ping := none
  query := fun _ => .ok
    { columns := .ok ["id", "name"]
      records := [.ok [some "1", some "a"], .ok [some "2", some "b"]]
      err := none }
  redis := fun _ _ => some "connection refused"
  uuid := fun k => "uuid-" ++ toString k
  openSQLHelper := fun _ _ _ => true

/-- An environment whose cursor delivers the first row of `users` and then stops on an
error, which `rows.Err()` reports. -/
def cutStreamEnv : Env where
  sqlOpen := fun _ _ => none
  ping := none
  query := fun _ => .ok
    { columns := .ok ["id", "name"]
      records := [.ok [some "1", some "a"]]
      err := some "unexpected EOF" }
  redis := fun _ _ => none
  uuid := fun k => "uuid-" ++ toString k
  openSQLHelper := fun _ _ _ => true

/-- The number a list of decimal digit characters writes. -/
def decodeDigits (l : List Char) : Nat :=
  l.foldl (fun acc ch => 10 * acc + (ch.toNat - 48)) 0

/-- The `HSET` commands of `Migrate` over the rows of a cursor, `k` identifiers having
been generated before. -/
def migrateWrites (env : Env) (columns : List String) : List (List RawBytes) → Nat → List RedisCmd
  | [], _ => []
  | values :: rest, k =>
    .hset (env.uuid k) (fillRowMap columns 0 values []) :: migrateWrites env columns rest (k + 1)

/-! ## The event log and the Redis commands in it -/

@[simp] theorem redisCmds_nil : redisCmds [] = [] := rfl

@[simp] theorem redisCmds_append (a b : List Event) :
    redisCmds (a ++ b) = redisCmds a ++ redisCmds b := by
  simp [redisCmds, List.filterMap_append]

@[simp] theorem redisCmds_cons_redis (cmd : RedisCmd) (tr : List Event) :
    redisCmds (.redis cmd :: tr) = cmd :: redisCmds tr := by
  simp [redisCmds, List.filterMap_cons]

theorem redisCmds_cons_other (ev : Event) (tr : List Event) (h : ∀ cmd, ev ≠ .redis cmd) :
    redisCmds (ev :: tr) = redisCmds tr := by
  cases ev <;> simp [redisCmds, List.filterMap_cons] at h ⊢

@[simp] theorem redisCmds_cons_next (tr : List Event) :
    redisCmds (.next :: tr) = redisCmds tr := redisCmds_cons_other _ _ (by simp)

@[simp] theorem redisCmds_cons_scan (tr : List Event) :
    redisCmds (.scan :: tr) = redisCmds tr := redisCmds_cons_other _ _ (by simp)

@[simp] theorem redisCmds_cons_rowsErr (tr : List Event) :
    redisCmds (.rowsErr :: tr) = redisCmds tr := redisCmds_cons_other _ _ (by simp)

@[simp] theorem redisCmds_cons_print (s : String) (tr : List Event) :
    redisCmds (.print s :: tr) = redisCmds tr := redisCmds_cons_other _ _ (by simp)

@[simp] theorem redisCmds_cons_printKey (c : RedisCmd) (tr : List Event) :
    redisCmds (.printKey c :: tr) = redisCmds tr := redisCmds_cons_other _ _ (by simp)

@[simp] theorem redisCmds_cons_columns (tr : List Event) :
    redisCmds (.columns :: tr) = redisCmds tr := redisCmds_cons_other _ _ (by simp)

@[simp] theorem redisCmds_cons_query (s : String) (tr : List Event) :
    redisCmds (.query s :: tr) = redisCmds tr := redisCmds_cons_other _ _ (by simp)

@[simp] theorem redisCmds_cons_closeRows (tr : List Event) :
    redisCmds (.closeRows :: tr) = redisCmds tr := redisCmds_cons_other _ _ (by simp)

@[simp] theorem redisCmds_cons_closeRedis (tr : List Event) :
    redisCmds (.closeRedis :: tr) = redisCmds tr := redisCmds_cons_other _ _ (by simp)

@[simp] theorem redisCmds_cons_closeDB (tr : List Event) :
    redisCmds (.closeDB :: tr) = redisCmds tr := redisCmds_cons_other _ _ (by simp)

@[simp] theorem redisCmds_cons_openRedis (a b : String) (tr : List Event) :
    redisCmds (.openRedis a b :: tr) = redisCmds tr := redisCmds_cons_other _ _ (by simp)

@[simp] theorem redisCmds_cons_sqlOpen (a b : String) (tr : List Event) :
    redisCmds (.sqlOpen a b :: tr) = redisCmds tr := redisCmds_cons_other _ _ (by simp)

@[simp] theorem redisCmds_cons_ping (tr : List Event) :
    redisCmds (.ping :: tr) = redisCmds tr := redisCmds_cons_other _ _ (by simp)

@[simp] theorem redisCmds_cons_uuid (tr : List Event) :
    redisCmds (.uuidNewV4 :: tr) = redisCmds tr := redisCmds_cons_other _ _ (by simp)

@[simp] theorem redisCmds_cons_helper (a b c : String) (tr : List Event) :
    redisCmds (.openSQLHelper a b c :: tr) = redisCmds tr := redisCmds_cons_other _ _ (by simp)

/-! ## Sending commands until one fails -/

theorem attempt_append (redis : List RedisCmd → RedisCmd → Option Error)
    (a b hist : List RedisCmd) :
    attempt redis hist (a ++ b) =
      if (attempt redis hist a).2 = none then attempt redis (attempt redis hist a).1 b
      else attempt redis hist a := by
  induction a generalizing hist with
  | nil => simp [attempt]
  | cons c cs ih =>
    simp only [List.cons_append, attempt]
    cases h : redis hist c with
    | none => simpa using ih (hist ++ [c])
    | some e => simp

/-- What `setLoop` sends is what `attempt` sends on the `SET` commands of the row. -/
theorem setLoop_attempt (env : Env) (log : Bool) (sqltable : String) (index : Nat)
    (columns : List String) (values : List RawBytes) (i : Nat) (tr : List Event) :
    redisCmds (setLoop env log sqltable index columns i values tr).1 =
        (attempt env.redis (redisCmds tr) (scalarWrites sqltable index columns i values)).1 ∧
      (setLoop env log sqltable index columns i values tr).2 =
        (attempt env.redis (redisCmds tr) (scalarWrites sqltable index columns i values)).2 := by
  induction values generalizing i tr with
  | nil => simp [setLoop, scalarWrites, attempt]
  | cons col rest ih =>
    simp only [setLoop, scalarWrites, attempt]
    cases h : env.redis (redisCmds tr)
        (.set (scalarKey sqltable index (columns.getD i "")) (rawText col)) with
    | some e => simp
    | none =>
      have key := ih (i + 1)
        (if log then tr ++ [.redis (.set (scalarKey sqltable index (columns.getD i "")) (rawText col)),
            .printKey (.set (scalarKey sqltable index (columns.getD i "")) (rawText col))]
          else tr ++ [.redis (.set (scalarKey sqltable index (columns.getD i "")) (rawText col))])
      cases log <;> simpa using key

theorem collectFields_eq (values : List RawBytes) (fields : List String) :
    collectFields values fields = fields ++ values.map rawText := by
  induction values generalizing fields with
  | nil => simp [collectFields]
  | cons col rest ih => simp [collectFields, ih]

theorem rowWrites_string (sqltable : String) (columns : List String) (index : Nat)
    (values : List RawBytes) :
    rowWrites "string" sqltable columns index values =
      scalarWrites sqltable index columns 0 values := by
  simp [rowWrites]

theorem rowWrites_list (sqltable : String) (columns : List String) (index : Nat)
    (values : List RawBytes) :
    rowWrites "list" sqltable columns index values =
      [.rpush (rowKey sqltable index) (values.map rawText)] := by
  simp [rowWrites]

theorem rowWrites_hash (sqltable : String) (columns : List String) (index : Nat)
    (values : List RawBytes) :
    rowWrites "hash" sqltable columns index values =
      [.hset (rowKey sqltable index) (fillRowMap columns 0 values [])] := by
  simp [rowWrites]

/-- What `stringLoop` sends and returns, by `attempt` on the write sequence of the rows
scanned. -/
theorem stringLoop_attempt (env : Env) (log : Bool) (sqltable : String)
    (columns : List String) (records : List (Except Error (List RawBytes))) (index : Nat)
    (tr : List Event) :
    redisCmds (stringLoop env log sqltable columns records index tr).1 =
        (attempt env.redis (redisCmds tr) (noFailureWrites "string" sqltable columns
          (scannedRows columns.length records) index)).1 ∧
      (stringLoop env log sqltable columns records index tr).2 =
        ((attempt env.redis (redisCmds tr) (noFailureWrites "string" sqltable columns
          (scannedRows columns.length records) index)).2).or
          (scanFailure columns.length records) := by
  induction records generalizing index tr with
  | nil => simp [stringLoop, scannedRows, noFailureWrites, attempt, scanFailure]
  | cons record rest ih =>
    simp only [stringLoop, scannedRows, scanFailure]
    cases hs : scan columns.length record with
    | error e => simp [noFailureWrites, attempt]
    | ok values =>
      have hset := setLoop_attempt env log sqltable index columns values 0 (tr ++ [.next, .scan])
      simp only [redisCmds_append, redisCmds_cons_next, redisCmds_cons_scan, redisCmds_nil,
        List.append_nil] at hset
      simp only [noFailureWrites, rowWrites_string, attempt_append]
      rcases hl : setLoop env log sqltable index columns 0 values (tr ++ [.next, .scan])
        with ⟨tr1, _ | e⟩
      · rw [hl] at hset
        have h2 : (attempt env.redis (redisCmds tr)
            (scalarWrites sqltable index columns 0 values)).2 = none := hset.2.symm
        have h1 := hset.1
        simp only at h1
        simp only [hl, h2, if_true, ← h1]
        exact ih (index + 1) tr1
      · rw [hl] at hset
        have h2 : (attempt env.redis (redisCmds tr)
            (scalarWrites sqltable index columns 0 values)).2 = some e := hset.2.symm
        have h1 := hset.1
        simp only at h1
        simp [hl, h2, h1]

/-- What `listLoop` sends and returns, by `attempt` on the write sequence of the rows
scanned. -/
theorem listLoop_attempt (env : Env) (log : Bool) (sqltable : String)
    (columns : List String) (records : List (Except Error (List RawBytes))) (index : Nat)
    (tr : List Event) :
    redisCmds (listLoop env log sqltable columns records index tr).1 =
        (attempt env.redis (redisCmds tr) (noFailureWrites "list" sqltable columns
          (scannedRows columns.length records) index)).1 ∧
      (listLoop env log sqltable columns records index tr).2 =
        ((attempt env.redis (redisCmds tr) (noFailureWrites "list" sqltable columns
          (scannedRows columns.length records) index)).2).or
          (scanFailure columns.length records) := by
  induction records generalizing index tr with
  | nil => simp [listLoop, scannedRows, noFailureWrites, attempt, scanFailure]
  | cons record rest ih =>
    simp only [listLoop, scannedRows, scanFailure]
    cases hs : scan columns.length record with
    | error e => simp [noFailureWrites, attempt]
    | ok values =>
      simp only [noFailureWrites, rowWrites_list, List.singleton_append, attempt,
        collectFields_eq, List.nil_append]
      cases hr : env.redis (redisCmds tr)
          (.rpush (rowKey sqltable index) (values.map rawText)) with
      | some e => simp
      | none =>
        have key := ih (index + 1)
          (if log then tr ++ [.next, .scan,
              .redis (.rpush (rowKey sqltable index) (values.map rawText))] ++
              [.printKey (.rpush (rowKey sqltable index) (values.map rawText))]
            else tr ++ [.next, .scan,
              .redis (.rpush (rowKey sqltable index) (values.map rawText))])
        cases log <;> simpa using key

/-- What `hashLoop` sends and returns, by `attempt` on the write sequence of the rows
scanned. -/
theorem hashLoop_attempt (env : Env) (log : Bool) (sqltable : String)
    (columns : List String) (records : List (Except Error (List RawBytes))) (index : Nat)
    (tr : List Event) :
    redisCmds (hashLoop env log sqltable columns records index tr).1 =
        (attempt env.redis (redisCmds tr) (noFailureWrites "hash" sqltable columns
          (scannedRows columns.length records) index)).1 ∧
      (hashLoop env log sqltable columns records index tr).2 =
        ((attempt env.redis (redisCmds tr) (noFailureWrites "hash" sqltable columns
          (scannedRows columns.length records) index)).2).or
          (scanFailure columns.length records) := by
  induction records generalizing index tr with
  | nil => simp [hashLoop, scannedRows, noFailureWrites, attempt, scanFailure]
  | cons record rest ih =>
    simp only [hashLoop, scannedRows, scanFailure]
    cases hs : scan columns.length record with
    | error e => simp [noFailureWrites, attempt]
    | ok values =>
      simp only [noFailureWrites, rowWrites_hash, List.singleton_append, attempt]
      cases hr : env.redis (redisCmds tr)
          (.hset (rowKey sqltable index) (fillRowMap columns 0 values [])) with
      | some e => simp
      | none =>
        have key := ih (index + 1)
          (if log then tr ++ [.next, .scan,
              .redis (.hset (rowKey sqltable index) (fillRowMap columns 0 values []))] ++
              [.printKey (.hset (rowKey sqltable index) (fillRowMap columns 0 values []))]
            else tr ++ [.next, .scan,
              .redis (.hset (rowKey sqltable index) (fillRowMap columns 0 values []))])
        cases log <;> simpa using key

/-- When `attempt` reports no error, every command was sent and accepted. -/
theorem attempt_none (redis : List RedisCmd → RedisCmd → Option Error)
    (cmds hist : List RedisCmd) (h : (attempt redis hist cmds).2 = none) :
    (attempt redis hist cmds).1 = hist ++ cmds ∧
      ∀ a c b, cmds = a ++ c :: b → redis (hist ++ a) c = none := by
  induction cmds generalizing hist with
  | nil => simp [attempt]
  | cons c0 cs ih =>
    simp only [attempt] at h ⊢
    cases hr : redis hist c0 with
    | some e => simp [hr] at h
    | none =>
      simp only [hr] at h ⊢
      obtain ⟨h1, h2⟩ := ih (hist ++ [c0]) h
      refine ⟨by simpa using h1, ?_⟩
      intro a c b hab
      cases a with
      | nil =>
        simp only [List.nil_append, List.cons.injEq] at hab
        simpa [← hab.1] using hr
      | cons x xs =>
        simp only [List.cons_append, List.cons.injEq] at hab
        have := h2 xs c b hab.2
        simpa [← hab.1] using this

/-- When `attempt` reports an error, it is the answer to the last command sent, and every
command before that one was accepted. -/
theorem attempt_some (redis : List RedisCmd → RedisCmd → Option Error)
    (cmds hist : List RedisCmd) (e : Error) (h : (attempt redis hist cmds).2 = some e) :
    ∃ a c b, cmds = a ++ c :: b ∧ (attempt redis hist cmds).1 = hist ++ a ++ [c] ∧
      redis (hist ++ a) c = some e ∧
      ∀ a1 c1 b1, a = a1 ++ c1 :: b1 → redis (hist ++ a1) c1 = none := by
  induction cmds generalizing hist with
  | nil => simp [attempt] at h
  | cons c0 cs ih =>
    simp only [attempt] at h ⊢
    cases hr : redis hist c0 with
    | some e0 =>
      simp only [hr, Option.some.injEq] at h ⊢
      refine ⟨[], c0, cs, rfl, by simp, by simpa [h] using hr, ?_⟩
      intro a1 c1 b1 hab
      simp at hab
    | none =>
      simp only [hr] at h ⊢
      obtain ⟨a, c, b, hc, h1, h2, h3⟩ := ih (hist ++ [c0]) h
      refine ⟨c0 :: a, c, b, by simp [hc], by simpa using h1, by simpa using h2, ?_⟩
      intro a1 c1 b1 hab
      cases a1 with
      | nil =>
        simp only [List.nil_append, List.cons.injEq] at hab
        simpa [← hab.1] using hr
      | cons x xs =>
        simp only [List.cons_append, List.cons.injEq] at hab
        have := h3 xs c1 b1 hab.2
        simpa [← hab.1] using this

/-- A list that ends before the last element of another, or is that other list. -/
theorem snoc_isPrefix_snoc {α : Type} (h a : List α) (c c0 : α)
    (hp : h ++ [c] <+: a ++ [c0]) :
    (h = a ∧ c = c0) ∨ ∃ t, a = h ++ c :: t := by
  obtain ⟨t, ht⟩ := hp
  rcases List.eq_nil_or_concat t with rfl | ⟨t1, x, rfl⟩
  · left
    simp only [List.append_nil] at ht
    have h1 := List.append_inj_left' ht rfl
    have h2 := List.append_inj_right' ht rfl
    exact ⟨h1, by simpa using h2⟩
  · right
    refine ⟨t1, ?_⟩
    have ht1 : (h ++ c :: t1) ++ [x] = a ++ [c0] := by simpa using ht
    exact (List.append_inj_left' ht1 rfl).symm

/-- In a run of `attempt` from the empty history in which every command sent is accepted,
all the commands are sent. -/
theorem attempt_all (redis : List RedisCmd → RedisCmd → Option Error) (cmds : List RedisCmd)
    (hok : ∀ h c, h ++ [c] <+: (attempt redis [] cmds).1 → redis h c = none) :
    attempt redis [] cmds = (cmds, none) := by
  cases hr : (attempt redis [] cmds).2 with
  | none =>
    have := (attempt_none redis cmds [] hr).1
    exact Prod.ext (by simpa using this) hr
  | some e =>
    obtain ⟨a, c, b, _, h1, h2, _⟩ := attempt_some redis cmds [] e hr
    simp only [List.nil_append] at h1 h2
    have := hok a c (by rw [h1])
    rw [this] at h2
    cases h2

/-- In a run of `attempt` from the empty history, a refused command is the last one sent,
its error is the one reported, and what was sent starts the command list. -/
theorem attempt_refused (redis : List RedisCmd → RedisCmd → Option Error)
    (cmds h : List RedisCmd) (c : RedisCmd) (e : Error)
    (hp : h ++ [c] <+: (attempt redis [] cmds).1) (he : redis h c = some e) :
    (attempt redis [] cmds).2 = some e ∧ (attempt redis [] cmds).1 = h ++ [c] ∧
      h ++ [c] <+: cmds := by
  cases hr : (attempt redis [] cmds).2 with
  | none =>
    obtain ⟨h1, h2⟩ := attempt_none redis cmds [] hr
    simp only [List.nil_append] at h1 h2
    rw [h1] at hp
    obtain ⟨t, ht⟩ := hp
    have := h2 h c t (by simpa using ht.symm)
    rw [this] at he
    cases he
  | some e0 =>
    obtain ⟨a, c0, b, hc, h1, h2, h3⟩ := attempt_some redis cmds [] e0 hr
    simp only [List.nil_append] at h1 h2 h3
    rw [h1] at hp
    rcases snoc_isPrefix_snoc h a c c0 hp with ⟨rfl, rfl⟩ | ⟨t, rfl⟩
    · rw [he] at h2
      refine ⟨h2.symm, h1, ?_⟩
      rw [hc]
      exact ⟨b, by simp⟩
    · have := h3 h c t rfl
      rw [this] at he
      cases he

/-! ## The run of `Convert` -/

theorem openSource_redisCmds (env : Env) (sqlType sqluser sqlpassword sqldatabase sqlhost sqlport :
    String) (tr : List Event) (res : Option Error)
    (h : openSource env sqlType sqluser sqlpassword sqldatabase sqlhost sqlport = some (tr, res)) :
    redisCmds tr = [] := by
  unfold openSource at h
  split at h
  · simp only [openSQL, Option.some.injEq, Prod.mk.injEq] at h
    simp [← h.1]
  · split at h
    · simp only [openPostgres, Option.some.injEq] at h
      split at h
      · simp only [Prod.mk.injEq] at h
        simp [← h.1]
      · split at h <;>
        · simp only [Prod.mk.injEq] at h
          simp [← h.1]
    · cases h

/-- What the `switch redisType` of `Convert` sends and returns under one of the three
encoding modes. -/
theorem convertSwitch_attempt (env : Env) (redisType : String) (log : Bool) (sqltable : String)
    (columns : List String) (rows : Cursor) (tr : List Event)
    (hmode : redisType = "string" ∨ redisType = "list" ∨ redisType = "hash") :
    redisCmds (convertSwitch env redisType log sqltable columns rows tr).1 =
        (attempt env.redis (redisCmds tr) (noFailureWrites redisType sqltable columns
          (scannedRows columns.length rows.records) 0)).1 ∧
      (convertSwitch env redisType log sqltable columns rows tr).2 =
        ((attempt env.redis (redisCmds tr) (noFailureWrites redisType sqltable columns
          (scannedRows columns.length rows.records) 0)).2).or
          ((scanFailure columns.length rows.records).or
            (if redisType = "hash" then rows.err else none)) := by
  rcases hmode with rfl | rfl | rfl
  · have := stringLoop_attempt env log sqltable columns rows.records 0 tr
    simpa [convertSwitch, Option.or_none] using this
  · have := listLoop_attempt env log sqltable columns rows.records 0 tr
    simpa [convertSwitch, Option.or_none] using this
  · have := hashLoop_attempt env log sqltable columns rows.records 0 tr
    simp only [convertSwitch, String.reduceEq, if_false, if_true]
    rcases hl : hashLoop env log sqltable columns rows.records 0 tr with ⟨tr1, _ | e⟩
    · rw [hl] at this
      obtain ⟨h1, h2⟩ := this
      simp only at h1 h2
      have h3 := h2.symm
      rw [Option.or_eq_none] at h3
      simp [← h1, h3.1, h3.2]
    · rw [hl] at this
      obtain ⟨h1, h2⟩ := this
      simp only at h1 h2
      refine ⟨by simpa using h1, ?_⟩
      simp only
      have h3 := h2.symm
      rw [Option.or_eq_some] at h3
      rcases h3 with h3 | ⟨h3, h4⟩
      · simp [h3]
      · simp [h3, h4]

/-- What the part of `Convert` after `rows.Columns()` sends and returns. -/
theorem convertRows_attempt (env : Env) (redisType : String) (log : Bool) (sqltable : String)
    (cur : Cursor) (cols : List String) (tr : List Event)
    (hcols : cur.columns = .ok cols)
    (hmode : redisType = "string" ∨ redisType = "list" ∨ redisType = "hash") :
    redisCmds (convertRows env redisType log sqltable cur tr).1 =
        (attempt env.redis (redisCmds tr) (noFailureWrites redisType sqltable cols
          (scannedRows cols.length cur.records) 0)).1 ∧
      (convertRows env redisType log sqltable cur tr).2 =
        ((attempt env.redis (redisCmds tr) (noFailureWrites redisType sqltable cols
          (scannedRows cols.length cur.records) 0)).2).or
          ((scanFailure cols.length cur.records).or
            (if redisType = "hash" then cur.err else none)) := by
  have hsw := convertSwitch_attempt env redisType log sqltable cols cur
    (if log then tr ++ [.columns, .print "\nRedis Keys: \n"] else tr ++ [.columns]) hmode
  have hhist : redisCmds (if log then tr ++ [.columns, .print "\nRedis Keys: \n"]
      else tr ++ [.columns]) = redisCmds tr := by
    cases log <;> simp
  rw [hhist] at hsw
  simp only [convertRows, hcols]
  rcases hl : convertSwitch env redisType log sqltable cols cur
      (if log then tr ++ [.columns, .print "\nRedis Keys: \n"] else tr ++ [.columns])
    with ⟨tr1, _ | e⟩
  · rw [hl] at hsw
    simp only at hsw
    simpa [hl] using hsw
  · rw [hl] at hsw
    simp only at hsw
    simpa [hl] using hsw

/-- What `Convert` sends to Redis and what it returns, once the source is open, the query
answered and the columns known: `attempt` on the write sequence of the rows scanned, then the
first scan error, then (in hash mode only) the terminal error of the cursor. -/
theorem Convert_attempt (env : Env) (redisType sqluser sqlpassword sqldatabase sqlhost sqlport
    sqltable redisaddr redispass sqlType : String) (log : Bool) (cur : Cursor)
    (cols : List String)
    (hsrc : sourceOpens env sqlType sqluser sqlpassword sqldatabase sqlhost sqlport)
    (hq : env.query ("SELECT * FROM " ++ sqltable) = .ok cur)
    (hcols : cur.columns = .ok cols)
    (hmode : redisType = "string" ∨ redisType = "list" ∨ redisType = "hash") :
    redisCmds (Convert env redisType sqluser sqlpassword sqldatabase sqlhost sqlport sqltable
        redisaddr redispass sqlType log).1 =
        (attempt env.redis [] (noFailureWrites redisType sqltable cols
          (scannedRows cols.length cur.records) 0)).1 ∧
      (Convert env redisType sqluser sqlpassword sqldatabase sqlhost sqlport sqltable
        redisaddr redispass sqlType log).2 =
        ((attempt env.redis [] (noFailureWrites redisType sqltable cols
          (scannedRows cols.length cur.records) 0)).2).or
          ((scanFailure cols.length cur.records).or
            (if redisType = "hash" then cur.err else none)) := by
  obtain ⟨tr, htr⟩ := hsrc
  have h0 := openSource_redisCmds env sqlType sqluser sqlpassword sqldatabase sqlhost sqlport
    tr none htr
  have hrows := convertRows_attempt env redisType log sqltable cur cols
    (tr ++ [.openRedis redisaddr redispass] ++ [.query ("SELECT * FROM " ++ sqltable)])
    hcols hmode
  have hhist : redisCmds (tr ++ [.openRedis redisaddr redispass] ++
      [.query ("SELECT * FROM " ++ sqltable)]) = [] := by
    simp [h0]
  rw [hhist] at hrows
  simp only [Convert, htr, convertQuery, hq]
  simpa using hrows

/-! ## The write sequence of a run without failure -/

theorem scannedRows_ok (n : Nat) (rows : List (List RawBytes))
    (h : ∀ r ∈ rows, r.length = n) :
    scannedRows n (rows.map .ok) = rows ∧ scanFailure n (rows.map .ok) = none := by
  induction rows with
  | nil => simp [scannedRows, scanFailure]
  | cons r rest ih =>
    have hr : r.length = n := h r (by simp)
    have ih1 := ih (fun r1 h1 => h r1 (by simp [h1]))
    simp [scannedRows, scanFailure, scan, hr, ih1.1, ih1.2]

theorem scalarWrites_length (sqltable : String) (index : Nat) (columns : List String)
    (values : List RawBytes) (i : Nat) :
    (scalarWrites sqltable index columns i values).length = values.length := by
  induction values generalizing i with
  | nil => simp [scalarWrites]
  | cons col rest ih => simp [scalarWrites, ih]

theorem scalarWrites_getElem? (sqltable : String) (index : Nat) (columns : List String)
    (values : List RawBytes) (i j : Nat) :
    (scalarWrites sqltable index columns i values)[j]? =
      values[j]?.map fun v =>
        RedisCmd.set (scalarKey sqltable index (columns.getD (i + j) "")) (rawText v) := by
  induction values generalizing i j with
  | nil => simp [scalarWrites]
  | cons col rest ih =>
    cases j with
    | zero => simp [scalarWrites]
    | succ j =>
      simp only [scalarWrites, List.getElem?_cons_succ, ih]
      have : i + 1 + j = i + (j + 1) := by omega
      rw [this]

theorem noFailureWrites_string_length (sqltable : String) (columns : List String)
    (rows : List (List RawBytes)) (index : Nat)
    (h : ∀ r ∈ rows, r.length = columns.length) :
    (noFailureWrites "string" sqltable columns rows index).length =
      rows.length * columns.length := by
  induction rows generalizing index with
  | nil => simp [noFailureWrites]
  | cons r rest ih =>
    have hr : r.length = columns.length := h r (by simp)
    have ih1 := ih (index + 1) (fun r1 h1 => h r1 (by simp [h1]))
    simp only [noFailureWrites, rowWrites_string, List.length_append, scalarWrites_length, hr,
      ih1, List.length_cons]
    ring

theorem noFailureWrites_string_getElem? (sqltable : String) (columns : List String)
    (rows : List (List RawBytes)) (index : Nat)
    (h : ∀ r ∈ rows, r.length = columns.length)
    (k i : Nat) (r : List RawBytes) (c : String) (v : RawBytes)
    (hk : rows[k]? = some r) (hi : columns[i]? = some c) (hv : r[i]? = some v) :
    (noFailureWrites "string" sqltable columns rows index)[k * columns.length + i]? =
      some (.set (scalarKey sqltable (index + k) c) (rawText v)) := by
  induction rows generalizing index k with
  | nil => simp at hk
  | cons r0 rest ih =>
    have hr0 : r0.length = columns.length := h r0 (by simp)
    have hilt : i < columns.length := (List.getElem?_eq_some.mp hi).1
    simp only [noFailureWrites, rowWrites_string]
    cases k with
    | zero =>
      simp only [List.getElem?_cons_zero, Option.some.injEq] at hk
      subst hk
      rw [List.getElem?_append_left (by simp [scalarWrites_length, hr0, hilt])]
      simp [scalarWrites_getElem?, hv, hi]
    | succ k =>
      simp only [List.getElem?_cons_succ] at hk
      rw [List.getElem?_append_right (by
        simp only [scalarWrites_length, hr0]
        nlinarith)]
      have hidx : (k + 1) * columns.length + i -
          (scalarWrites sqltable index columns 0 r0).length = k * columns.length + i := by
        simp only [scalarWrites_length, hr0]
        have : (k + 1) * columns.length = k * columns.length + columns.length := by ring
        omega
      rw [hidx, ih (index + 1) (fun r1 h1 => h r1 (by simp [h1])) k hk]
      have : index + 1 + k = index + (k + 1) := by omega
      rw [this]

theorem noFailureWrites_list_getElem? (sqltable : String) (columns : List String)
    (rows : List (List RawBytes)) (index k : Nat) :
    (noFailureWrites "list" sqltable columns rows index)[k]? =
      rows[k]?.map fun r => RedisCmd.rpush (rowKey sqltable (index + k)) (r.map rawText) := by
  induction rows generalizing index k with
  | nil => simp [noFailureWrites]
  | cons r0 rest ih =>
    simp only [noFailureWrites, rowWrites_list, List.singleton_append]
    cases k with
    | zero => simp
    | succ k =>
      simp only [List.getElem?_cons_succ, ih]
      have : index + 1 + k = index + (k + 1) := by omega
      rw [this]

theorem noFailureWrites_hash_getElem? (sqltable : String) (columns : List String)
    (rows : List (List RawBytes)) (index k : Nat) :
    (noFailureWrites "hash" sqltable columns rows index)[k]? =
      rows[k]?.map fun r =>
        RedisCmd.hset (rowKey sqltable (index + k)) (fillRowMap columns 0 r []) := by
  induction rows generalizing index k with
  | nil => simp [noFailureWrites]
  | cons r0 rest ih =>
    simp only [noFailureWrites, rowWrites_hash, List.singleton_append]
    cases k with
    | zero => simp
    | succ k =>
      simp only [List.getElem?_cons_succ, ih]
      have : index + 1 + k = index + (k + 1) := by omega
      rw [this]

theorem noFailureWrites_list_length (sqltable : String) (columns : List String)
    (rows : List (List RawBytes)) (index : Nat) :
    (noFailureWrites "list" sqltable columns rows index).length = rows.length := by
  induction rows generalizing index with
  | nil => simp [noFailureWrites]
  | cons r rest ih => simp [noFailureWrites, rowWrites_list, ih]

theorem noFailureWrites_hash_length (sqltable : String) (columns : List String)
    (rows : List (List RawBytes)) (index : Nat) :
    (noFailureWrites "hash" sqltable columns rows index).length = rows.length := by
  induction rows generalizing index with
  | nil => simp [noFailureWrites]
  | cons r rest ih => simp [noFailureWrites, rowWrites_hash, ih]

/-- A run of `Convert` in which no scan and no write fails sends the whole write sequence
of its rows, and returns the terminal error of the cursor in hash mode, nil otherwise. -/
theorem Convert_noFailure (env : Env) (redisType sqluser sqlpassword sqldatabase sqlhost sqlport
    sqltable redisaddr redispass sqlType : String) (log : Bool) (cur : Cursor)
    (cols : List String) (rows : List (List RawBytes))
    (hsrc : sourceOpens env sqlType sqluser sqlpassword sqldatabase sqlhost sqlport)
    (hq : env.query ("SELECT * FROM " ++ sqltable) = .ok cur)
    (hcols : cur.columns = .ok cols)
    (hmode : redisType = "string" ∨ redisType = "list" ∨ redisType = "hash")
    (hrec : cur.records = rows.map .ok)
    (hwidth : ∀ r ∈ rows, r.length = cols.length)
    (hwrite : ∀ h c, h ++ [c] <+: redisCmds (Convert env redisType sqluser sqlpassword
      sqldatabase sqlhost sqlport sqltable redisaddr redispass sqlType log).1 →
      env.redis h c = none) :
    redisCmds (Convert env redisType sqluser sqlpassword sqldatabase sqlhost sqlport sqltable
        redisaddr redispass sqlType log).1 = noFailureWrites redisType sqltable cols rows 0 ∧
      (Convert env redisType sqluser sqlpassword sqldatabase sqlhost sqlport sqltable
        redisaddr redispass sqlType log).2 = if redisType = "hash" then cur.err else none := by
  obtain ⟨h1, h2⟩ := Convert_attempt env redisType sqluser sqlpassword sqldatabase sqlhost
    sqlport sqltable redisaddr redispass sqlType log cur cols hsrc hq hcols hmode
  obtain ⟨hs1, hs2⟩ := scannedRows_ok cols.length rows hwidth
  rw [hrec, hs1] at h1
  rw [hrec, hs1, hs2] at h2
  rw [h1] at hwrite
  have hall := attempt_all env.redis _ hwrite
  rw [hall] at h1 h2
  exact ⟨h1, by simpa using h2⟩

/-! ## The row map of the hash encoding -/

theorem GoMap.get_set (m : GoMap) (k v q : String) :
    (m.set k v).get q = if k = q then some v else m.get q := by
  induction m with
  | nil => simp [GoMap.set, GoMap.get]
  | cons kv rest ih =>
    obtain ⟨k1, v1⟩ := kv
    by_cases hk : k1 = k
    · subst hk
      simp only [GoMap.set, if_true, GoMap.get]
      by_cases hq : k1 = q <;> simp [hq]
    · simp only [GoMap.set, hk, if_false, GoMap.get, ih]
      by_cases hq : k1 = q
      · have : ¬ k = q := fun h => hk (hq.trans h.symm)
        simp [hq, this]
      · simp [hq]

/-- A name that no column of the row carries keeps the entry it had. -/
theorem fillRowMap_get_other (columns : List String) (values : List RawBytes) (i : Nat)
    (m : GoMap) (q : String) (hlen : i + values.length ≤ columns.length)
    (hq : ∀ j, j < values.length → columns[i + j]? ≠ some q) :
    (fillRowMap columns i values m).get q = m.get q := by
  induction values generalizing i m with
  | nil => simp [fillRowMap]
  | cons col rest ih =>
    simp only [List.length_cons] at hlen hq
    have hi : i < columns.length := by omega
    have h0 : columns[i]? ≠ some q := by simpa using hq 0 (by omega)
    have hne : ¬ columns.getD i "" = q := by
      intro h
      apply h0
      rw [List.getElem?_eq_getElem hi] at h0 ⊢
      simpa [List.getElem?_eq_getElem hi] using h
    rw [fillRowMap, ih (i + 1) _ (by omega), GoMap.get_set, if_neg hne]
    intro j hj
    have := hq (j + 1) (by omega)
    have e : i + 1 + j = i + (j + 1) := by omega
    rw [e]
    exact this

/-- A column name gets the text of the payload at its last position in the row. -/
theorem fillRowMap_get_last (columns : List String) (values : List RawBytes) (i : Nat)
    (m : GoMap) (q : String) (j : Nat) (v : RawBytes)
    (hlen : i + values.length ≤ columns.length)
    (hv : values[j]? = some v) (hc : columns[i + j]? = some q)
    (hlast : ∀ j1, j < j1 → columns[i + j1]? ≠ some q) :
    (fillRowMap columns i values m).get q = some (rawText v) := by
  induction values generalizing i m j with
  | nil => simp at hv
  | cons col rest ih =>
    simp only [List.length_cons] at hlen
    have hi : i < columns.length := by omega
    cases j with
    | zero =>
      simp only [List.getElem?_cons_zero, Option.some.injEq] at hv
      subst hv
      have hcol : columns.getD i "" = q := by
        simp only [Nat.add_zero] at hc
        simp [hc]
      rw [fillRowMap, fillRowMap_get_other columns rest (i + 1) _ q (by omega), GoMap.get_set,
        if_pos hcol]
      intro j _
      have := hlast (j + 1) (by omega)
      have e : i + 1 + j = i + (j + 1) := by omega
      rw [e]
      exact this
    | succ j =>
      simp only [List.getElem?_cons_succ] at hv
      have e : i + 1 + j = i + (j + 1) := by omega
      rw [fillRowMap]
      apply ih (i + 1) _ j (by omega) hv (by rw [e]; exact hc)
      intro j1 hj1
      have := hlast (j1 + 1) (by omega)
      have e1 : i + 1 + j1 = i + (j1 + 1) := by omega
      rw [e1]
      exact this

/-- A name that occurs in a list has a last position in it. -/
theorem exists_last_position (columns : List String) (c : String) (h : c ∈ columns) :
    ∃ i : Nat, columns[i]? = some c ∧ ∀ j : Nat, i < j → columns[j]? ≠ some c := by
  induction columns with
  | nil => simp at h
  | cons x xs ih =>
    by_cases hx : c ∈ xs
    · obtain ⟨i, h1, h2⟩ := ih hx
      refine ⟨i + 1, by simpa using h1, ?_⟩
      intro j hj
      cases j with
      | zero => omega
      | succ j => simpa using h2 j (by omega)
    · have hc : c = x := by
        rcases List.mem_cons.mp h with h | h
        · exact h
        · exact absurd h hx
      subst hc
      refine ⟨0, by simp, ?_⟩
      intro j hj
      cases j with
      | zero => omega
      | succ j =>
        simp only [List.getElem?_cons_succ]
        intro hj1
        exact hx (List.getElem?_mem hj1)

/-! ## The three encodings -/

/-- C1: in scalar mode ("string"), over a cursor of `m` rows of `n` columns on which no scan
and no write fails, `Convert` sends exactly `m * n` commands, and the command at position
`k * n + i` (row `k`, column `i`, rows counted from 0) is the `SET` of key
`<table>:<k>:<column i>` to the text of the `i`-th payload of row `k`. -/
theorem Convert_string_writes (env : Env) (sqluser sqlpassword sqldatabase sqlhost sqlport
    sqltable redisaddr redispass sqlType : String) (log : Bool) (cur : Cursor)
    (cols : List String) (rows : List (List RawBytes))
    (hsrc : sourceOpens env sqlType sqluser sqlpassword sqldatabase sqlhost sqlport)
    (hq : env.query ("SELECT * FROM " ++ sqltable) = .ok cur)
    (hcols : cur.columns = .ok cols)
    (hrec : cur.records = rows.map .ok)
    (hwidth : ∀ r ∈ rows, r.length = cols.length)
    (hwrite : ∀ h c, h ++ [c] <+: redisCmds (Convert env "string" sqluser sqlpassword
      sqldatabase sqlhost sqlport sqltable redisaddr redispass sqlType log).1 →
      env.redis h c = none) :
    (redisCmds (Convert env "string" sqluser sqlpassword sqldatabase sqlhost sqlport sqltable
        redisaddr redispass sqlType log).1).length = rows.length * cols.length ∧
      ∀ (k i : Nat) (r : List RawBytes) (c : String) (v : RawBytes),
        rows[k]? = some r → cols[i]? = some c → r[i]? = some v →
        (redisCmds (Convert env "string" sqluser sqlpassword sqldatabase sqlhost sqlport
          sqltable redisaddr redispass sqlType log).1)[k * cols.length + i]? =
          some (.set (sqltable ++ ":" ++ toString k ++ ":" ++ c) (rawText v)) := by
  obtain ⟨h1, _⟩ := Convert_noFailure env "string" sqluser sqlpassword sqldatabase sqlhost
    sqlport sqltable redisaddr redispass sqlType log cur cols rows hsrc hq hcols
    (Or.inl rfl) hrec hwidth hwrite
  rw [h1]
  refine ⟨noFailureWrites_string_length sqltable cols rows 0 hwidth, ?_⟩
  intro k i r c v hk hi hv
  rw [noFailureWrites_string_getElem? sqltable cols rows 0 hwidth k i r c v hk hi hv]
  simp [scalarKey]

/-- C2: in hash mode, over a cursor on which no scan and no write fails, `Convert` sends
exactly one command per row, and the command of row `k` (counted from 0) is the `HSET` of key
`<table>:<k>` to a map that gives each column name the text of the payload at the last
position where the name occurs in the row, and that has an entry for the column names and
for nothing else. -/
theorem Convert_hash_writes (env : Env) (sqluser sqlpassword sqldatabase sqlhost sqlport
    sqltable redisaddr redispass sqlType : String) (log : Bool) (cur : Cursor)
    (cols : List String) (rows : List (List RawBytes))
    (hsrc : sourceOpens env sqlType sqluser sqlpassword sqldatabase sqlhost sqlport)
    (hq : env.query ("SELECT * FROM " ++ sqltable) = .ok cur)
    (hcols : cur.columns = .ok cols)
    (hrec : cur.records = rows.map .ok)
    (hwidth : ∀ r ∈ rows, r.length = cols.length)
    (hwrite : ∀ h c, h ++ [c] <+: redisCmds (Convert env "hash" sqluser sqlpassword
      sqldatabase sqlhost sqlport sqltable redisaddr redispass sqlType log).1 →
      env.redis h c = none) :
    (redisCmds (Convert env "hash" sqluser sqlpassword sqldatabase sqlhost sqlport sqltable
        redisaddr redispass sqlType log).1).length = rows.length ∧
      ∀ (k : Nat) (r : List RawBytes), rows[k]? = some r →
        ∃ rowMap : GoMap,
          (redisCmds (Convert env "hash" sqluser sqlpassword sqldatabase sqlhost sqlport
            sqltable redisaddr redispass sqlType log).1)[k]? =
            some (.hset (sqltable ++ ":" ++ toString k) rowMap) ∧
          (∀ (i : Nat) (c : String) (v : RawBytes), cols[i]? = some c → r[i]? = some v →
            (∀ j : Nat, i < j → cols[j]? ≠ some c) → rowMap.get c = some (rawText v)) ∧
          (∀ c : String, rowMap.get c ≠ none ↔ c ∈ cols) := by
  obtain ⟨h1, _⟩ := Convert_noFailure env "hash" sqluser sqlpassword sqldatabase sqlhost
    sqlport sqltable redisaddr redispass sqlType log cur cols rows hsrc hq hcols
    (Or.inr (Or.inr rfl)) hrec hwidth hwrite
  rw [h1]
  refine ⟨noFailureWrites_hash_length sqltable cols rows 0, ?_⟩
  intro k r hk
  have hr : r.length = cols.length := hwidth r (List.getElem?_mem hk)
  have hlast : ∀ (i : Nat) (c : String) (v : RawBytes), cols[i]? = some c → r[i]? = some v →
      (∀ j : Nat, i < j → cols[j]? ≠ some c) →
      (fillRowMap cols 0 r []).get c = some (rawText v) := by
    intro i c v hc hv hl
    exact fillRowMap_get_last cols r 0 [] c i v (by omega) hv (by simpa using hc)
      (fun j hj => by simpa using hl j hj)
  refine ⟨fillRowMap cols 0 r [], ?_, hlast, ?_⟩
  · rw [noFailureWrites_hash_getElem?, hk]
    simp [rowKey]
  · intro c
    constructor
    · intro hne
      by_contra hc
      apply hne
      rw [fillRowMap_get_other cols r 0 [] c (by omega)]
      · rfl
      · intro j _ hj
        exact hc (List.getElem?_mem (by simpa using hj))
    · intro hc
      obtain ⟨i, hi1, hi2⟩ := exists_last_position cols c hc
      have hilt : i < r.length := by
        rw [hr]
        exact (List.getElem?_eq_some.mp hi1).1
      rw [hlast i c r[i] hi1 (List.getElem?_eq_getElem hilt) hi2]
      simp

/-- C3: in list mode, over a cursor on which no scan and no write fails, `Convert` sends
exactly one command per row, and the command of row `k` (counted from 0) is the `RPUSH` under
key `<table>:<k>` of the texts of the payloads of the row, in column order and as many as
there are columns. -/
theorem Convert_list_writes (env : Env) (sqluser sqlpassword sqldatabase sqlhost sqlport
    sqltable redisaddr redispass sqlType : String) (log : Bool) (cur : Cursor)
    (cols : List String) (rows : List (List RawBytes))
    (hsrc : sourceOpens env sqlType sqluser sqlpassword sqldatabase sqlhost sqlport)
    (hq : env.query ("SELECT * FROM " ++ sqltable) = .ok cur)
    (hcols : cur.columns = .ok cols)
    (hrec : cur.records = rows.map .ok)
    (hwidth : ∀ r ∈ rows, r.length = cols.length)
    (hwrite : ∀ h c, h ++ [c] <+: redisCmds (Convert env "list" sqluser sqlpassword
      sqldatabase sqlhost sqlport sqltable redisaddr redispass sqlType log).1 →
      env.redis h c = none) :
    (redisCmds (Convert env "list" sqluser sqlpassword sqldatabase sqlhost sqlport sqltable
        redisaddr redispass sqlType log).1).length = rows.length ∧
      ∀ (k : Nat) (r : List RawBytes), rows[k]? = some r →
        (redisCmds (Convert env "list" sqluser sqlpassword sqldatabase sqlhost sqlport
          sqltable redisaddr redispass sqlType log).1)[k]? =
          some (.rpush (sqltable ++ ":" ++ toString k) (r.map rawText)) ∧
        (r.map rawText).length = cols.length := by
  obtain ⟨h1, _⟩ := Convert_noFailure env "list" sqluser sqlpassword sqldatabase sqlhost
    sqlport sqltable redisaddr redispass sqlType log cur cols rows hsrc hq hcols
    (Or.inr (Or.inl rfl)) hrec hwidth hwrite
  rw [h1]
  refine ⟨noFailureWrites_list_length sqltable cols rows 0, ?_⟩
  intro k r hk
  have hr : r.length = cols.length := hwidth r (List.getElem?_mem hk)
  refine ⟨?_, by simpa using hr⟩
  rw [noFailureWrites_list_getElem?, hk]
  simp [rowKey]

/-- The scenario of the specification, scalar mode: table `users` with the rows
(id 1, name a) and (id 2, name b). -/
theorem Convert_string_writes_users :
    (redisCmds (Convert usersEnv "string" "root" "secret" "shop" "localhost" "5432" "users"
        "localhost:6379" "" "postgres" false).1).length = 2 * 2 ∧
      (redisCmds (Convert usersEnv "string" "root" "secret" "shop" "localhost" "5432" "users"
        "localhost:6379" "" "postgres" false).1)[0]? = some (.set "users:0:id" "1") ∧
      (redisCmds (Convert usersEnv "string" "root" "secret" "shop" "localhost" "5432" "users"
        "localhost:6379" "" "postgres" false).1)[1]? = some (.set "users:0:name" "a") ∧
      (redisCmds (Convert usersEnv "string" "root" "secret" "shop" "localhost" "5432" "users"
        "localhost:6379" "" "postgres" false).1)[2]? = some (.set "users:1:id" "2") ∧
      (redisCmds (Convert usersEnv "string" "root" "secret" "shop" "localhost" "5432" "users"
        "localhost:6379" "" "postgres" false).1)[3]? = some (.set "users:1:name" "b") := by
  have h := Convert_string_writes usersEnv "root" "secret" "shop" "localhost" "5432" "users"
    "localhost:6379" "" "postgres" false
    { columns := .ok ["id", "name"]
      records := [.ok [some "1", some "a"], .ok [some "2", some "b"]]
      err := none }
    ["id", "name"] [[some "1", some "a"], [some "2", some "b"]]
    ⟨_, rfl⟩ rfl rfl rfl (by decide) (fun _ _ _ => rfl)
  exact ⟨h.1, h.2 0 0 _ _ _ rfl rfl rfl, h.2 0 1 _ _ _ rfl rfl rfl,
    h.2 1 0 _ _ _ rfl rfl rfl, h.2 1 1 _ _ _ rfl rfl rfl⟩

/-- The scenario of the specification, hash mode: the first row of table `users`. -/
theorem Convert_hash_writes_users :
    (redisCmds (Convert usersEnv "hash" "root" " " "shop" "" "" "users"
        "localhost:6379" "" "mysql" true).1).length = 2 ∧
      ∃ rowMap : GoMap,
        (redisCmds (Convert usersEnv "hash" "root" " " "shop" "" "" "users"
          "localhost:6379" "" "mysql" true).1)[0]? = some (.hset "users:0" rowMap) ∧
        rowMap.get "id" = some "1" ∧ rowMap.get "name" = some "a" ∧
        (rowMap.get "age" ≠ none ↔ "age" ∈ ["id", "name"]) := by
  have h := Convert_hash_writes usersEnv "root" " " "shop" "" "" "users"
    "localhost:6379" "" "mysql" true
    { columns := .ok ["id", "name"]
      records := [.ok [some "1", some "a"], .ok [some "2", some "b"]]
      err := none }
    ["id", "name"] [[some "1", some "a"], [some "2", some "b"]]
    ⟨_, rfl⟩ rfl rfl rfl (by decide) (fun _ _ _ => rfl)
  obtain ⟨rowMap, h1, h2, h3⟩ := h.2 0 _ rfl
  refine ⟨h.1, rowMap, h1, h2 0 "id" (some "1") rfl rfl ?_, h2 1 "name" (some "a") rfl rfl ?_,
    h3 "age"⟩
  · intro j hj
    match j, hj with
    | 1, _ => decide
    | j + 2, _ => simp
  · intro j hj
    match j, hj with
    | j + 2, _ => simp

/-- The table `users` in list mode: the second row. -/
theorem Convert_list_writes_users :
    (redisCmds (Convert usersEnv "list" "root" "secret" "shop" "localhost" "5432" "users"
        "localhost:6379" "" "postgres" false).1).length = 2 ∧
      (redisCmds (Convert usersEnv "list" "root" "secret" "shop" "localhost" "5432" "users"
        "localhost:6379" "" "postgres" false).1)[1]? = some (.rpush "users:1" ["2", "b"]) ∧
      ["2", "b"].length = 2 := by
  have h := Convert_list_writes usersEnv "root" "secret" "shop" "localhost" "5432" "users"
    "localhost:6379" "" "postgres" false
    { columns := .ok ["id", "name"]
      records := [.ok [some "1", some "a"], .ok [some "2", some "b"]]
      err := none }
    ["id", "name"] [[some "1", some "a"], [some "2", some "b"]]
    ⟨_, rfl⟩ rfl rfl rfl (by decide) (fun _ _ _ => rfl)
  exact ⟨h.1, h.2 1 _ rfl⟩

/-! ## Failures -/

/-- C4: under each of the three encoding modes, if Redis refuses a command that `Convert`
sends, then `Convert` returns the error of that command, the refused command is the last one
it sends, and what it has sent is the start, up to and including the refused command, of the
write sequence of a run without failure over the rows the cursor delivers. -/
theorem Convert_write_failure (env : Env) (redisType sqluser sqlpassword sqldatabase sqlhost
    sqlport sqltable redisaddr redispass sqlType : String) (log : Bool) (cur : Cursor)
    (cols : List String) (h : List RedisCmd) (c : RedisCmd) (e : Error)
    (hsrc : sourceOpens env sqlType sqluser sqlpassword sqldatabase sqlhost sqlport)
    (hq : env.query ("SELECT * FROM " ++ sqltable) = .ok cur)
    (hcols : cur.columns = .ok cols)
    (hmode : redisType = "string" ∨ redisType = "list" ∨ redisType = "hash")
    (hsent : h ++ [c] <+: redisCmds (Convert env redisType sqluser sqlpassword sqldatabase
      sqlhost sqlport sqltable redisaddr redispass sqlType log).1)
    (hfail : env.redis h c = some e) :
    (Convert env redisType sqluser sqlpassword sqldatabase sqlhost sqlport sqltable
        redisaddr redispass sqlType log).2 = some e ∧
      redisCmds (Convert env redisType sqluser sqlpassword sqldatabase sqlhost sqlport sqltable
        redisaddr redispass sqlType log).1 = h ++ [c] ∧
      h ++ [c] <+: noFailureWrites redisType sqltable cols
        (scannedRows cols.length cur.records) 0 := by
  obtain ⟨h1, h2⟩ := Convert_attempt env redisType sqluser sqlpassword sqldatabase sqlhost
    sqlport sqltable redisaddr redispass sqlType log cur cols hsrc hq hcols hmode
  rw [h1] at hsent
  obtain ⟨r1, r2, r3⟩ := attempt_refused env.redis _ h c e hsent hfail
  refine ⟨?_, ?_, r3⟩
  · rw [h2, r1]
    rfl
  · rw [h1, r2]

/-- The table `users` in scalar mode when Redis refuses the second command: the run stops
there with that error. -/
theorem Convert_write_failure_users :
    (Convert brokenRedisEnv "string" "root" "secret" "shop" "localhost" "5432" "users"
        "localhost:6379" "" "postgres" false).2 = some "connection refused" ∧
      redisCmds (Convert brokenRedisEnv "string" "root" "secret" "shop" "localhost" "5432"
        "users" "localhost:6379" "" "postgres" false).1 =
        [.set "users:0:id" "1"] ++ [.set "users:0:name" "a"] ∧
      [.set "users:0:id" "1"] ++ [.set "users:0:name" "a"] <+:
        noFailureWrites "string" "users" ["id", "name"]
          (scannedRows 2 [.ok [some "1", some "a"], .ok [some "2", some "b"]]) 0 :=
  Convert_write_failure brokenRedisEnv "string" "root" "secret" "shop" "localhost" "5432"
    "users" "localhost:6379" "" "postgres" false
    { columns := .ok ["id", "name"]
      records := [.ok [some "1", some "a"], .ok [some "2", some "b"]]
      err := none }
    ["id", "name"] [.set "users:0:id" "1"] (.set "users:0:name" "a") "connection refused"
    ⟨_, rfl⟩ rfl rfl (Or.inl rfl) (by decide) rfl

/-- C5 (the code departs from it): with a Redis that refuses every command, `Migrate` over
the two rows of `users` still sends the `HSET` of the second row after the first was refused,
and returns nil. -/
theorem Migrate_ignores_write_failure :
    deadRedisEnv.redis [] (.hset "uuid-0" [("id", "1"), ("name", "a")]) =
        some "connection refused" ∧
      redisCmds (Migrate deadRedisEnv "root" "secret" "shop" "users" "localhost:6379" "").1 =
        [.hset "uuid-0" [("id", "1"), ("name", "a")],
          .hset "uuid-1" [("id", "2"), ("name", "b")]] ∧
      (Migrate deadRedisEnv "root" "secret" "shop" "users" "localhost:6379" "").2 =
        .returned none := by
  decide

/-- C6 (the code departs from it): over a cursor that stops on an error after its first row,
`Convert` returns nil in scalar mode and in list mode, and returns the error in hash mode
only. -/
theorem Convert_drops_stream_error :
    (Convert cutStreamEnv "string" "root" "secret" "shop" "localhost" "5432" "users"
        "localhost:6379" "" "postgres" false).2 = none ∧
      (Convert cutStreamEnv "list" "root" "secret" "shop" "localhost" "5432" "users"
        "localhost:6379" "" "postgres" false).2 = none ∧
      (Convert cutStreamEnv "hash" "root" "secret" "shop" "localhost" "5432" "users"
        "localhost:6379" "" "postgres" false).2 = some "unexpected EOF" := by
  decide

/-- C7: for a `sqlType` other than "mysql" and "postgres", `Convert` returns an error and
does nothing else: its event log is empty, so no connection to the source or to Redis is
opened, no query is issued and no command is sent. -/
theorem Convert_unknown_sqlType (env : Env) (redisType sqluser sqlpassword sqldatabase sqlhost
    sqlport sqltable redisaddr redispass sqlType : String) (log : Bool)
    (hmysql : sqlType ≠ "mysql") (hpostgres : sqlType ≠ "postgres") :
    Convert env redisType sqluser sqlpassword sqldatabase sqlhost sqlport sqltable redisaddr
      redispass sqlType log = ([], some "Sql database type not known!") := by
  simp [Convert, openSource, hmysql, hpostgres]

/-- A run of `Convert` on the kind "sqlite". -/
theorem Convert_unknown_sqlType_sqlite :
    Convert usersEnv "hash" "root" "secret" "shop" "localhost" "5432" "users" "localhost:6379"
      "" "sqlite" true = ([], some "Sql database type not known!") :=
  Convert_unknown_sqlType usersEnv "hash" "root" "secret" "shop" "localhost" "5432" "users"
    "localhost:6379" "" "sqlite" true (by decide) (by decide)

/-- C10: for a `redisType` other than "string", "list" and "hash", once the source is open
and the query answered, `Convert` returns nil, sends no command to Redis and never calls
`rows.Next()` or `rows.Scan`. -/
theorem Convert_unknown_redisType (env : Env) (redisType sqluser sqlpassword sqldatabase sqlhost
    sqlport sqltable redisaddr redispass sqlType : String) (log : Bool) (cur : Cursor)
    (cols : List String)
    (hsrc : sourceOpens env sqlType sqluser sqlpassword sqldatabase sqlhost sqlport)
    (hq : env.query ("SELECT * FROM " ++ sqltable) = .ok cur)
    (hcols : cur.columns = .ok cols)
    (hstring : redisType ≠ "string") (hlist : redisType ≠ "list") (hhash : redisType ≠ "hash") :
    (Convert env redisType sqluser sqlpassword sqldatabase sqlhost sqlport sqltable redisaddr
        redispass sqlType log).2 = none ∧
      redisCmds (Convert env redisType sqluser sqlpassword sqldatabase sqlhost sqlport sqltable
        redisaddr redispass sqlType log).1 = [] ∧
      Event.next ∉ (Convert env redisType sqluser sqlpassword sqldatabase sqlhost sqlport
        sqltable redisaddr redispass sqlType log).1 ∧
      Event.scan ∉ (Convert env redisType sqluser sqlpassword sqldatabase sqlhost sqlport
        sqltable redisaddr redispass sqlType log).1 := by
  obtain ⟨tr, htr⟩ := hsrc
  have h0 := openSource_redisCmds env sqlType sqluser sqlpassword sqldatabase sqlhost sqlport
    tr none htr
  have hn : Event.next ∉ tr ∧ Event.scan ∉ tr := by
    unfold openSource at htr
    split at htr
    · simp only [openSQL, Option.some.injEq, Prod.mk.injEq] at htr
      simp [← htr.1]
    · split at htr
      · simp only [openPostgres, Option.some.injEq] at htr
        split at htr
        · simp at htr
        · split at htr <;>
          · simp only [Prod.mk.injEq] at htr
            simp [← htr.1]
      · cases htr
  cases log <;>
    simp [Convert, htr, convertQuery, hq, convertRows, hcols, convertSwitch, hstring, hlist,
      hhash, h0, hn.1, hn.2]

/-- A run of `Convert` on the encoding mode "set". -/
theorem Convert_unknown_redisType_set :
    (Convert usersEnv "set" "root" "secret" "shop" "localhost" "5432" "users" "localhost:6379"
        "" "postgres" true).2 = none ∧
      redisCmds (Convert usersEnv "set" "root" "secret" "shop" "localhost" "5432" "users"
        "localhost:6379" "" "postgres" true).1 = [] ∧
      Event.next ∉ (Convert usersEnv "set" "root" "secret" "shop" "localhost" "5432" "users"
        "localhost:6379" "" "postgres" true).1 ∧
      Event.scan ∉ (Convert usersEnv "set" "root" "secret" "shop" "localhost" "5432" "users"
        "localhost:6379" "" "postgres" true).1 :=
  Convert_unknown_redisType usersEnv "set" "root" "secret" "shop" "localhost" "5432" "users"
    "localhost:6379" "" "postgres" true
    { columns := .ok ["id", "name"]
      records := [.ok [some "1", some "a"], .ok [some "2", some "b"]]
      err := none }
    ["id", "name"] ⟨_, rfl⟩ rfl rfl (by decide) (by decide) (by decide)

/-! ## Destination keys -/

theorem digitChar_spec : ∀ k, k < 10 →
    (Nat.digitChar k).toNat - 48 = k ∧ Nat.digitChar k ≠ ':' := by
  decide

theorem decodeDigits_snoc (l : List Char) (ch : Char) :
    decodeDigits (l ++ [ch]) = 10 * decodeDigits l + (ch.toNat - 48) := by
  simp [decodeDigits, List.foldl_append]

/-- With enough fuel, `Nat.toDigitsCore` puts in front of `ds` the decimal digits of `n`. -/
theorem toDigitsCore_spec (fuel n : Nat) (ds : List Char) (h : n < fuel) :
    ∃ l, Nat.toDigitsCore 10 fuel n ds = l ++ ds ∧ decodeDigits l = n ∧
      ∀ ch ∈ l, ch ≠ ':' := by
  induction fuel generalizing n ds with
  | zero => omega
  | succ fuel ih =>
    have hd := digitChar_spec (n % 10) (Nat.mod_lt _ (by decide))
    simp only [Nat.toDigitsCore]
    by_cases h0 : n / 10 = 0
    · refine ⟨[Nat.digitChar (n % 10)], by simp [h0], ?_, by simpa using hd.2⟩
      have := decodeDigits_snoc [] (Nat.digitChar (n % 10))
      simp only [List.nil_append] at this
      rw [this, hd.1]
      simp only [decodeDigits, List.foldl_nil]
      omega
    · obtain ⟨l, h1, h2, h3⟩ := ih (n / 10) (Nat.digitChar (n % 10) :: ds) (by omega)
      refine ⟨l ++ [Nat.digitChar (n % 10)], by simp [h0, h1], ?_, ?_⟩
      · rw [decodeDigits_snoc, h2, hd.1]
        omega
      · intro ch hch
        rcases List.mem_append.mp hch with hch | hch
        · exact h3 ch hch
        · simp only [List.mem_singleton] at hch
          rw [hch]
          exact hd.2

/-- The decimal text of a number decodes to the number and holds no colon. -/
theorem toString_nat_spec (n : Nat) :
    decodeDigits (toString n).data = n ∧ ∀ ch ∈ (toString n).data, ch ≠ ':' := by
  obtain ⟨l, h1, h2, h3⟩ := toDigitsCore_spec (n + 1) n [] (by omega)
  have : (toString n).data = l := by
    show (Nat.repr n).data = l
    simp [Nat.repr, Nat.toDigits, h1, List.asString]
  rw [this]
  exact ⟨h2, h3⟩

/-- Two texts cut at their first colon agree on both sides of it. -/
theorem split_at_colon (a b x y : List Char) (ha : ∀ ch ∈ a, ch ≠ ':')
    (hb : ∀ ch ∈ b, ch ≠ ':') (h : a ++ ':' :: x = b ++ ':' :: y) : a = b ∧ x = y := by
  induction a generalizing b with
  | nil =>
    cases b with
    | nil => simpa using h
    | cons c cs =>
      simp only [List.nil_append, List.cons_append, List.cons.injEq] at h
      exact absurd h.1.symm (hb c (by simp))
  | cons c cs ih =>
    cases b with
    | nil =>
      simp only [List.nil_append, List.cons_append, List.cons.injEq] at h
      exact absurd h.1 (ha c (by simp))
    | cons d ds =>
      simp only [List.cons_append, List.cons.injEq] at h
      obtain ⟨h1, h2⟩ := ih ds (fun ch hch => ha ch (by simp [hch]))
        (fun ch hch => hb ch (by simp [hch])) h.2
      exact ⟨by rw [h.1, h1], h2⟩

theorem scalarKey_data (sqltable : String) (index : Nat) (column : String) :
    (scalarKey sqltable index column).data =
      sqltable.data ++ ':' :: ((toString index).data ++ ':' :: column.data) := by
  simp only [scalarKey, String.data_append]
  have : (":" : String).data = [':'] := rfl
  simp [this]

theorem rowKey_data (sqltable : String) (index : Nat) :
    (rowKey sqltable index).data = sqltable.data ++ ':' :: (toString index).data := by
  simp only [rowKey, String.data_append]
  have : (":" : String).data = [':'] := rfl
  simp [this]

theorem scalarKey_injective (sqltable : String) (i j : Nat) (c d : String)
    (h : scalarKey sqltable i c = scalarKey sqltable j d) : i = j ∧ c = d := by
  have hd := congrArg String.data h
  rw [scalarKey_data, scalarKey_data] at hd
  have h1 := List.append_cancel_left hd
  simp only [List.cons.injEq, true_and] at h1
  obtain ⟨h2, h3⟩ := split_at_colon _ _ _ _ (toString_nat_spec i).2 (toString_nat_spec j).2 h1
  refine ⟨?_, String.ext h3⟩
  rw [← (toString_nat_spec i).1, ← (toString_nat_spec j).1, h2]

theorem rowKey_injective (sqltable : String) (i j : Nat)
    (h : rowKey sqltable i = rowKey sqltable j) : i = j := by
  have hd := congrArg String.data h
  rw [rowKey_data, rowKey_data] at hd
  have h1 := List.append_cancel_left hd
  simp only [List.cons.injEq, true_and] at h1
  rw [← (toString_nat_spec i).1, ← (toString_nat_spec j).1, h1]

/-- What `attempt` sends from the empty history starts the command list. -/
theorem attempt_isPrefix (redis : List RedisCmd → RedisCmd → Option Error)
    (cmds : List RedisCmd) : (attempt redis [] cmds).1 <+: cmds := by
  cases hr : (attempt redis [] cmds).2 with
  | none =>
    have := (attempt_none redis cmds [] hr).1
    rw [this]
    simp
  | some e =>
    obtain ⟨a, c, b, hc, h1, _, _⟩ := attempt_some redis cmds [] e hr
    rw [h1, hc]
    exact ⟨b, by simp⟩

theorem scannedRows_width (n : Nat) (records : List (Except Error (List RawBytes))) :
    ∀ r ∈ scannedRows n records, r.length = n := by
  induction records with
  | nil => simp [scannedRows]
  | cons record rest ih =>
    intro r hr
    simp only [scannedRows] at hr
    cases hs : scan n record with
    | error e => simp [hs] at hr
    | ok values =>
      simp only [hs, List.mem_cons] at hr
      rcases hr with rfl | hr
      · unfold scan at hs
        cases record with
        | error e => simp at hs
        | ok r0 =>
          simp only at hs
          split at hs
          · simp only [Except.ok.injEq] at hs
            rw [← hs]
            assumption
          · simp at hs
      · exact ih r hr

/-- The keys of the `SET` commands of a row are the keys of a stretch of the column names. -/
theorem scalarWrites_keys (sqltable : String) (index : Nat) (columns : List String)
    (values : List RawBytes) (i : Nat) (hlen : i + values.length ≤ columns.length) :
    (scalarWrites sqltable index columns i values).map RedisCmd.key =
      ((columns.drop i).take values.length).map (scalarKey sqltable index) := by
  induction values generalizing i with
  | nil => simp [scalarWrites]
  | cons col rest ih =>
    simp only [List.length_cons] at hlen
    have hi : i < columns.length := by omega
    rw [List.drop_eq_getElem_cons hi]
    simp only [scalarWrites, List.map_cons, RedisCmd.key, List.length_cons, List.take_succ_cons,
      ih (i + 1) (by omega)]
    simp [List.getElem?_eq_getElem hi]

/-- Every key of the scalar write sequence carries a row position from `index` on. -/
theorem noFailureWrites_string_keys (sqltable : String) (columns : List String)
    (rows : List (List RawBytes)) (index : Nat)
    (hwidth : ∀ r ∈ rows, r.length = columns.length) :
    ∀ key ∈ (noFailureWrites "string" sqltable columns rows index).map RedisCmd.key,
      ∃ j c, index ≤ j ∧ key = scalarKey sqltable j c := by
  induction rows generalizing index with
  | nil => simp [noFailureWrites]
  | cons r rest ih =>
    intro key hkey
    have hr : r.length = columns.length := hwidth r (by simp)
    simp only [noFailureWrites, rowWrites_string, List.map_append, List.mem_append] at hkey
    rcases hkey with hkey | hkey
    · rw [scalarWrites_keys sqltable index columns r 0 (by omega)] at hkey
      obtain ⟨c, _, hc⟩ := List.mem_map.mp hkey
      exact ⟨index, c, le_refl _, hc.symm⟩
    · obtain ⟨j, c, hj, hc⟩ := ih (index + 1) (fun r1 h1 => hwidth r1 (by simp [h1])) key hkey
      exact ⟨j, c, by omega, hc⟩

/-- With pairwise distinct column names, the scalar write sequence writes no key twice. -/
theorem noFailureWrites_string_nodup (sqltable : String) (columns : List String)
    (rows : List (List RawBytes)) (index : Nat)
    (hwidth : ∀ r ∈ rows, r.length = columns.length) (hcols : columns.Nodup) :
    ((noFailureWrites "string" sqltable columns rows index).map RedisCmd.key).Nodup := by
  induction rows generalizing index with
  | nil => simp [noFailureWrites]
  | cons r rest ih =>
    have hr : r.length = columns.length := hwidth r (by simp)
    have hrest : ∀ r1 ∈ rest, r1.length = columns.length := fun r1 h1 => hwidth r1 (by simp [h1])
    simp only [noFailureWrites, rowWrites_string, List.map_append]
    rw [List.nodup_append]
    refine ⟨?_, ih (index + 1) hrest, ?_⟩
    · rw [scalarWrites_keys sqltable index columns r 0 (by omega)]
      apply List.Nodup.map
      · intro c d hcd
        exact (scalarKey_injective sqltable index index c d hcd).2
      · exact List.Nodup.sublist ((List.take_sublist _ _).trans (List.drop_sublist _ _)) hcols
    · rw [List.disjoint_left]
      intro key h1 h2
      rw [scalarWrites_keys sqltable index columns r 0 (by omega)] at h1
      obtain ⟨c, _, hc⟩ := List.mem_map.mp h1
      obtain ⟨j, d, hj, hd⟩ := noFailureWrites_string_keys sqltable columns rest (index + 1)
        hrest key h2
      rw [← hc] at hd
      have := (scalarKey_injective sqltable index j c d hd).1
      omega

/-- C8: for a fixed table name the scalar key `<table>:<index>:<column>` determines the
row position and the column name (colons in the names included), the row key
`<table>:<index>` determines the row position, and a scalar run of `Convert` over pairwise
distinct column names sends no two commands with the same key. -/
theorem destination_keys_injective :
    (∀ (sqltable : String) (i j : Nat) (c d : String),
        scalarKey sqltable i c = scalarKey sqltable j d → i = j ∧ c = d) ∧
      (∀ (sqltable : String) (i j : Nat), rowKey sqltable i = rowKey sqltable j → i = j) ∧
      ∀ (env : Env) (sqluser sqlpassword sqldatabase sqlhost sqlport sqltable redisaddr
          redispass sqlType : String) (log : Bool) (cur : Cursor) (cols : List String),
        sourceOpens env sqlType sqluser sqlpassword sqldatabase sqlhost sqlport →
        env.query ("SELECT * FROM " ++ sqltable) = .ok cur →
        cur.columns = .ok cols →
        cols.Nodup →
        ((redisCmds (Convert env "string" sqluser sqlpassword sqldatabase sqlhost sqlport
          sqltable redisaddr redispass sqlType log).1).map RedisCmd.key).Nodup := by
  refine ⟨scalarKey_injective, rowKey_injective, ?_⟩
  intro env sqluser sqlpassword sqldatabase sqlhost sqlport sqltable redisaddr redispass sqlType
    log cur cols hsrc hq hcols hnodup
  obtain ⟨h1, _⟩ := Convert_attempt env "string" sqluser sqlpassword sqldatabase sqlhost
    sqlport sqltable redisaddr redispass sqlType log cur cols hsrc hq hcols (Or.inl rfl)
  rw [h1]
  exact List.Nodup.sublist
    ((attempt_isPrefix env.redis _).map RedisCmd.key).sublist
    (noFailureWrites_string_nodup sqltable cols _ 0 (scannedRows_width _ _) hnodup)

/-- The keys `t:1:2:c` and `t:12:c` differ, the row keys of rows 1 and 12 differ, and the
scalar run over the table `users` writes four distinct keys. -/
theorem destination_keys_injective_users :
    scalarKey "t" 1 "2:c" ≠ scalarKey "t" 12 "c" ∧ rowKey "t" 1 ≠ rowKey "t" 12 ∧
      ((redisCmds (Convert usersEnv "string" "root" "secret" "shop" "localhost" "5432" "users"
        "localhost:6379" "" "postgres" false).1).map RedisCmd.key).Nodup :=
  ⟨fun h => absurd (destination_keys_injective.1 "t" 1 12 "2:c" "c" h).1 (by decide),
    fun h => absurd (destination_keys_injective.2.1 "t" 1 12 h) (by decide),
    destination_keys_injective.2.2 usersEnv "root" "secret" "shop" "localhost" "5432" "users"
      "localhost:6379" "" "postgres" false
      { columns := .ok ["id", "name"]
        records := [.ok [some "1", some "a"], .ok [some "2", some "b"]]
        err := none }
      ["id", "name"] ⟨_, rfl⟩ rfl rfl (by decide)⟩

/-! ## The migration pipeline -/

theorem migrateWrites_length (env : Env) (columns : List String) (rows : List (List RawBytes))
    (k : Nat) : (migrateWrites env columns rows k).length = rows.length := by
  induction rows generalizing k with
  | nil => simp [migrateWrites]
  | cons r rest ih => simp [migrateWrites, ih]

theorem migrateWrites_getElem? (env : Env) (columns : List String)
    (rows : List (List RawBytes)) (k j : Nat) :
    (migrateWrites env columns rows k)[j]? =
      rows[j]?.map fun r => RedisCmd.hset (env.uuid (k + j)) (fillRowMap columns 0 r []) := by
  induction rows generalizing k j with
  | nil => simp [migrateWrites]
  | cons r0 rest ih =>
    simp only [migrateWrites]
    cases j with
    | zero => simp
    | succ j =>
      simp only [List.getElem?_cons_succ, ih]
      have : k + 1 + j = k + (j + 1) := by omega
      rw [this]

/-- What the loop of `Migrate` sends and returns: one `HSET` per row scanned, whatever Redis
answers, and the error of the first failing scan. -/
theorem migrateLoop_cmds (env : Env) (columns : List String)
    (records : List (Except Error (List RawBytes))) (k : Nat) (tr : List Event) :
    redisCmds (migrateLoop env columns records k tr).1 =
        redisCmds tr ++ migrateWrites env columns (scannedRows columns.length records) k ∧
      (migrateLoop env columns records k tr).2 = scanFailure columns.length records := by
  induction records generalizing k tr with
  | nil => simp [migrateLoop, scannedRows, migrateWrites, scanFailure]
  | cons record rest ih =>
    simp only [migrateLoop, scannedRows, scanFailure]
    cases hs : scan columns.length record with
    | error e => simp [migrateWrites]
    | ok values =>
      have key := ih (k + 1) (tr ++ [.next, .scan, .uuidNewV4, .print (env.uuid k ++ "\n"),
        .redis (.hset (env.uuid k) (fillRowMap columns 0 values []))])
      simpa [migrateWrites] using key

/-- What `Migrate` sends to Redis and how it ends, once the handle is usable, the query
answered and the columns known. -/
theorem Migrate_cmds (env : Env) (user password database table redisAddress redisPassword :
    String) (cur : Cursor) (cols : List String)
    (hopen : env.openSQLHelper user password database = true)
    (hq : env.query ("SELECT * FROM " ++ table ++ ";") = .ok cur)
    (hcols : cur.columns = .ok cols) :
    redisCmds (Migrate env user password database table redisAddress redisPassword).1 =
        migrateWrites env cols (scannedRows cols.length cur.records) 0 ∧
      (Migrate env user password database table redisAddress redisPassword).2 =
        .returned ((scanFailure cols.length cur.records).or cur.err) := by
  have hl := migrateLoop_cmds env cols cur.records 0
    ([Event.openSQLHelper user password database, .openRedis redisAddress redisPassword] ++
      [.query ("SELECT * FROM " ++ table ++ ";")] ++ [.columns, .print "Redis Keys:\n\n"])
  simp only [Migrate, hopen, if_true, hq, migrateRows, hcols]
  rcases hm : migrateLoop env cols cur.records 0
      ([Event.openSQLHelper user password database, .openRedis redisAddress redisPassword] ++
        [.query ("SELECT * FROM " ++ table ++ ";")] ++ [.columns, .print "Redis Keys:\n\n"])
    with ⟨tr1, _ | e⟩
  · rw [hm] at hl
    obtain ⟨h1, h2⟩ := hl
    simp only at h1 h2
    simp only [hm]
    cases he : cur.err with
    | none => simpa [← h2] using h1
    | some e1 => simpa [← h2] using h1
  · rw [hm] at hl
    obtain ⟨h1, h2⟩ := hl
    simp only at h1 h2
    simp only [hm]
    simpa [← h2] using h1

/-- C9: over a cursor on which no scan and no write fails, `Migrate` sends exactly one
`HSET` per row, in stream order; the map it writes for row `k` is the map `Convert` writes in
hash mode for row `k` of the same cursor, the key being the text of the `k`-th identifier
generated instead of `<table>:<k>`; that map gives each column name the text of the payload
at its last position in the row, the text of a nil payload being empty; and the two calls
return the same error value. -/
theorem Migrate_matches_hash (env : Env) (user password database table redisAddress
    redisPassword sqlhost sqlport sqlType : String) (log : Bool) (cur : Cursor)
    (cols : List String) (rows : List (List RawBytes))
    (hopen : env.openSQLHelper user password database = true)
    (hqm : env.query ("SELECT * FROM " ++ table ++ ";") = .ok cur)
    (hsrc : sourceOpens env sqlType user password database sqlhost sqlport)
    (hq : env.query ("SELECT * FROM " ++ table) = .ok cur)
    (hcols : cur.columns = .ok cols)
    (hrec : cur.records = rows.map .ok)
    (hwidth : ∀ r ∈ rows, r.length = cols.length)
    (hwrite : ∀ h c, h ++ [c] <+: redisCmds (Convert env "hash" user password database
      sqlhost sqlport table redisAddress redisPassword sqlType log).1 →
      env.redis h c = none) :
    (redisCmds (Migrate env user password database table redisAddress redisPassword).1).length =
        rows.length ∧
      (∀ (k : Nat) (r : List RawBytes), rows[k]? = some r →
        ∃ rowMap : GoMap,
          (redisCmds (Migrate env user password database table redisAddress
            redisPassword).1)[k]? = some (.hset (env.uuid k) rowMap) ∧
          (redisCmds (Convert env "hash" user password database sqlhost sqlport table
            redisAddress redisPassword sqlType log).1)[k]? =
            some (.hset (table ++ ":" ++ toString k) rowMap) ∧
          (∀ (i : Nat) (c : String) (v : RawBytes), cols[i]? = some c → r[i]? = some v →
            (∀ j : Nat, i < j → cols[j]? ≠ some c) → rowMap.get c = some (rawText v))) ∧
      rawText none = "" ∧
      (Migrate env user password database table redisAddress redisPassword).2 =
        .returned (Convert env "hash" user password database sqlhost sqlport table
          redisAddress redisPassword sqlType log).2 := by
  obtain ⟨c1, c2⟩ := Convert_noFailure env "hash" user password database sqlhost
    sqlport table redisAddress redisPassword sqlType log cur cols rows hsrc hq hcols
    (Or.inr (Or.inr rfl)) hrec hwidth hwrite
  obtain ⟨m1, m2⟩ := Migrate_cmds env user password database table redisAddress redisPassword
    cur cols hopen hqm hcols
  obtain ⟨hs1, hs2⟩ := scannedRows_ok cols.length rows hwidth
  rw [hrec, hs1] at m1
  rw [hrec, hs2] at m2
  rw [c1, c2, m1, m2]
  refine ⟨migrateWrites_length env cols rows 0, ?_, rfl, by simp⟩
  intro k r hk
  have hr : r.length = cols.length := hwidth r (List.getElem?_mem hk)
  refine ⟨fillRowMap cols 0 r [], ?_, ?_, ?_⟩
  · rw [migrateWrites_getElem?, hk]
    simp
  · rw [noFailureWrites_hash_getElem?, hk]
    simp [rowKey]
  · intro i c v hc hv hl
    exact fillRowMap_get_last cols r 0 [] c i v (by omega) hv (by simpa using hc)
      (fun j hj => by simpa using hl j hj)

/-- The table `users` through `Migrate` and through `Convert` in hash mode: the first
row. -/
theorem Migrate_matches_hash_users :
    (redisCmds (Migrate usersEnv "root" "secret" "shop" "users" "localhost:6379" "").1).length =
        2 ∧
      (∃ rowMap : GoMap,
        (redisCmds (Migrate usersEnv "root" "secret" "shop" "users" "localhost:6379"
          "").1)[0]? = some (.hset "uuid-0" rowMap) ∧
        (redisCmds (Convert usersEnv "hash" "root" "secret" "shop" "" "" "users"
          "localhost:6379" "" "mysql" false).1)[0]? = some (.hset "users:0" rowMap)) ∧
      (Migrate usersEnv "root" "secret" "shop" "users" "localhost:6379" "").2 =
        .returned (Convert usersEnv "hash" "root" "secret" "shop" "" "" "users"
          "localhost:6379" "" "mysql" false).2 := by
  have h := Migrate_matches_hash usersEnv "root" "secret" "shop" "users" "localhost:6379" ""
    "" "" "mysql" false
    { columns := .ok ["id", "name"]
      records := [.ok [some "1", some "a"], .ok [some "2", some "b"]]
      err := none }
    ["id", "name"] [[some "1", some "a"], [some "2", some "b"]]
    rfl rfl ⟨_, rfl⟩ rfl rfl rfl (by decide) (fun _ _ _ => rfl)
  obtain ⟨rowMap, h1, h2, _⟩ := h.2.1 0 _ rfl
  exact ⟨h.1, ⟨rowMap, h1, h2⟩, h.2.2.2⟩

end Redisql
